import Mathlib

/-!
Verification of the core numerical components of the stormwater drainage
calculators: the inverse hydraulic solver of the composite gutter flow app
(`gutterflow_streamlit_app_v3.py`) and the wildfire Monte Carlo discharge
simulator (`streamlit_wildfire_discharge.py`).

Real-valued hydraulic formulas (Manning's equation with fractional powers)
are embedded over `ℝ`; the sampling/interpolation solver and the per-trial
simulation state evolution, which are exact arithmetic plus control flow,
are embedded over `ℚ` so that they stay executable.
-/

namespace Wildfire

/-- `num_simulations = 10000` — the trial count is hardcoded in the script. -/
def num_simulations : ℕ := 10000

/-- Minimum of the "Design Lifespan (years)" sidebar slider: the UI cannot
produce fewer than 10 years. -/
def design_lifespan_min : ℕ := 10

/-- `drainage_area_m2 = drainage_area * 10000`. -/
def drainage_area_m2 (drainage_area : ℚ) : ℚ := drainage_area * 10000

/-- `rainfall_intensity_m_s = rainfall_intensity / 3600000`. -/
def rainfall_intensity_m_s (rainfall_intensity : ℚ) : ℚ :=
  rainfall_intensity / 3600000

/-- Numpy slice assignment `cur[a:b] = post[a:b]`: positions `a ≤ i < b`
of `cur` are replaced by the same-index entries of `post`. -/
def overwriteSlice (cur post : List ℚ) (a b : ℕ) : List ℚ :=
  cur.mapIdx (fun i x => if a ≤ i ∧ i < b then post.getD i x else x)

/-- One iteration of the per-trial year loop:
`if wildfire_occurrences[sim, year] == 1:
   end_effect_year = min(year + fire_effect_duration, design_lifespan_years)
   C_values[year:end_effect_year] = C_post_wildfire_samples[sim, year:end_effect_year]`. -/
def simStep (post : List ℚ) (d n : ℕ) (occ : List Bool) (acc : List ℚ) (year : ℕ) :
    List ℚ :=
  if occ.getD year false then overwriteSlice acc post year (min (year + d) n) else acc

/-- The per-trial effective runoff coefficients: start from a copy of the
baseline draws and scan the years in increasing order, overwriting the
affected slice on each year whose wildfire indicator fired
(`streamlit_wildfire_discharge.py` lines 52-58). -/
def applyOverrides (base post : List ℚ) (occ : List Bool) (d : ℕ) : List ℚ :=
  (List.range base.length).foldl (simStep post d base.length occ) base

/-- The same override pass with the years scanned in decreasing order, so
that on overlapping windows the earliest onset writes last
(a first-onset-wins overlap policy). -/
def applyOverridesRev (base post : List ℚ) (occ : List Bool) (d : ℕ) : List ℚ :=
  (List.range base.length).reverse.foldl (simStep post d base.length occ) base

/-- `np.mean` of a row. -/
def mean (xs : List ℚ) : ℚ := xs.sum / xs.length

/-- `C_values * rainfall_intensity_m_s * drainage_area_m2` (elementwise). -/
def rowQ (c : List ℚ) (r a : ℚ) : List ℚ := c.map (fun x => x * r * a)

/-- One trial's time-averaged discharge: `np.mean(C_values * r * a)`. -/
def trialAvg (base post : List ℚ) (occ : List Bool) (d : ℕ) (r a : ℚ) : ℚ :=
  mean (rowQ (applyOverrides base post occ d) r a)

/-- Whether year `o` is a fired onset (`occ.getD o false = true`) whose
effect window `[o, o + d)` covers year `y`. -/
def onsetCovers (occ : List Bool) (d y o : ℕ) : Bool :=
  occ.getD o false && decide (o ≤ y) && decide (y < o + d)

/-- Whether some onset year covers year `y`. -/
def firedAny (occ : List Bool) (d y : ℕ) : Bool :=
  (List.range occ.length).any (onsetCovers occ d y)

/-- Specification-level description of the effective values: year `y` holds
the override draw for year `y` when some fired onset window covers `y`, and
the baseline draw otherwise. -/
def effectiveSpec (base post : List ℚ) (occ : List Bool) (d : ℕ) : List ℚ :=
  (List.range base.length).map
    (fun y => if firedAny occ d y then post.getD y 0 else base.getD y 0)

/-- A `num_trials × num_years` grid of draws taken from the sequential
random source `f`, starting at offset `off`:
trial `i`, year `j` receives draw number `off + i*nY + j`. -/
def drawGrid (f : ℕ → ℚ) (off nT nY : ℕ) : List (List ℚ) :=
  (List.range nT).map (fun i => (List.range nY).map (fun j => f (off + i * nY + j)))

/-- The Bernoulli onset indicators, drawn from the boolean source `g`. -/
def drawOccGrid (g : ℕ → Bool) (nT nY : ℕ) : List (List Bool) :=
  (List.range nT).map (fun i => (List.range nY).map (fun j => g (i * nY + j)))

/-- `durations = list(range(1, 31, 2))`. -/
def codeDurations : List ℕ := (List.range 15).map (fun k => 1 + 2 * k)

/-- The sensitivity curve (lines 119-132): for each duration, re-run every
trial's override pass on the same pre-drawn baseline/override/onset grids
and take the cross-trial mean of the per-trial time averages. -/
def sweepCurve (bases posts : List (List ℚ)) (occs : List (List Bool))
    (durs : List ℕ) (r a : ℚ) : List ℚ :=
  durs.map (fun d =>
    mean ((List.range bases.length).map
      (fun s => trialAvg (bases.getD s []) (posts.getD s []) (occs.getD s []) d r a)))

/-- The whole sweep as a function of the sequential random source: the
baseline grid is drawn first (offsets `0 ≤ k < nT*nY`), then the
post-wildfire grid (offsets `nT*nY ≤ k < 2*nT*nY`), then the onset grid
from the boolean source; the duration loop draws nothing further. -/
def sweepFromSeed (f : ℕ → ℚ) (g : ℕ → Bool) (nT nY : ℕ) (durs : List ℕ)
    (r a : ℚ) : List ℚ :=
  sweepCurve (drawGrid f 0 nT nY) (drawGrid f (nT * nY) nT nY)
    (drawOccGrid g nT nY) durs r a

end Wildfire

namespace Gutterflow

/-- `mannings_flow(area, hydraulic_radius, slope, n)`:
`(1 / n) * area * (hydraulic_radius ** (2 / 3)) * (slope ** 0.5)`. -/
noncomputable def mannings_flow (area hydraulic_radius slope n : ℝ) : ℝ :=
  (1 / n) * area * hydraulic_radius ^ ((2 : ℝ) / 3) * slope ^ ((0.5 : ℝ))

/-- `Tw = min(T, W)`: width of the wetted gutter pan. -/
noncomputable def Tw (T W : ℝ) : ℝ := min T W

/-- `Ts = max(T - W, 0)`: spread beyond the gutter onto the road. -/
noncomputable def Ts (T W : ℝ) : ℝ := max (T - W) 0

/-- `Aw = 0.5 * Tw * (Sw * Tw)`. -/
noncomputable def Aw (T W Sw : ℝ) : ℝ := 0.5 * Tw T W * (Sw * Tw T W)

/-- `Pw = Tw * np.sqrt(1 + Sw**2)`. -/
noncomputable def Pw (T W Sw : ℝ) : ℝ := Tw T W * Real.sqrt (1 + Sw ^ 2)

/-- `Rw = Aw / Pw if Pw != 0 else 0`. -/
noncomputable def Rw (T W Sw : ℝ) : ℝ :=
  if Pw T W Sw ≠ 0 then Aw T W Sw / Pw T W Sw else 0

/-- `Qw = mannings_flow(Aw, Rw, Sl, Nw)`. -/
noncomputable def Qw (T W Sw Nw Sl : ℝ) : ℝ :=
  mannings_flow (Aw T W Sw) (Rw T W Sw) Sl Nw

/-- `As = Ts * (Sw * W + Sx * Ts / 2)`. -/
noncomputable def As (T W Sw Sx : ℝ) : ℝ :=
  Ts T W * (Sw * W + Sx * Ts T W / 2)

/-- `Ps = Ts + np.sqrt((Sw * W)**2 + Ts**2) + Ts * np.sqrt(1 + Sx**2)`. -/
noncomputable def Ps (T W Sw Sx : ℝ) : ℝ :=
  Ts T W + Real.sqrt ((Sw * W) ^ 2 + Ts T W ^ 2) + Ts T W * Real.sqrt (1 + Sx ^ 2)

/-- `Rs = As / Ps if Ps != 0 else 0`. -/
noncomputable def Rs (T W Sw Sx : ℝ) : ℝ :=
  if Ps T W Sw Sx ≠ 0 then As T W Sw Sx / Ps T W Sw Sx else 0

/-- `Qs = mannings_flow(As, Rs, Sl, Nx)`. -/
noncomputable def Qs (T W Sw Sx Nx Sl : ℝ) : ℝ :=
  mannings_flow (As T W Sw Sx) (Rs T W Sw Sx) Sl Nx

/-- `compute_composite_flow(T, W, Sw, Nw, Sx, Nx, Sl) = Qw + Qs`
(`gutterflow_streamlit_app_v3.py` lines 93-107). -/
noncomputable def compute_composite_flow (T W Sw Nw Sx Nx Sl : ℝ) : ℝ :=
  Qw T W Sw Nw Sl + Qs T W Sw Sx Nx Sl

/-- `compute_max_depth(T, W, Sw, Sx)`: `Sw * T` when `T ≤ W`, otherwise
`Sw * W + Sx * (T - W)` (lines 109-113). -/
noncomputable def compute_max_depth (T W Sw Sx : ℝ) : ℝ :=
  if T ≤ W then Sw * T else Sw * W + Sx * (T - W)

/-- The `i`-th grid value of `np.linspace(lo, hi, n)`:
`lo + i * (hi - lo) / (n - 1)`. -/
def gridT (lo hi : ℚ) (n : ℕ) (i : ℕ) : ℚ :=
  lo + i * ((hi - lo) / ((n : ℚ) - 1))

/-- `np.linspace(lo, hi, n)`: `n` equally spaced values from `lo` to `hi`. -/
def linspace (lo hi : ℚ) (n : ℕ) : List ℚ :=
  (List.range n).map (gridT lo hi n)

/-- The `(Q, T)` sample pairs that survive the plot-ceiling filter
(`Q_filtered` and `T_filtered`, lines 115-118), with the forward model
abstracted as `f`. -/
def sampleFilter (f : ℚ → ℚ) (lo hi : ℚ) (n : ℕ) (Qmax : ℚ) : List (ℚ × ℚ) :=
  ((linspace lo hi n).map (fun t => (f t, t))).filter (fun p => p.1 ≤ Qmax)

/-- Linear interpolation along the segment through `p1` and `p2` (each an
`(x, y)` pair), evaluated at `q`. -/
def interpSeg (p1 p2 : ℚ × ℚ) (q : ℚ) : ℚ :=
  p1.2 + (q - p1.1) * (p2.2 - p1.2) / (p2.1 - p1.1)

/-- Piecewise-linear interpolation over sorted sample points, as
`scipy.interpolate.interp1d(..., fill_value="extrapolate")` evaluates it:
use the first segment whose right endpoint is `≥ q`; queries beyond either
end are evaluated along the outermost segment (silent extrapolation). -/
def interpGo (p1 p2 : ℚ × ℚ) : List (ℚ × ℚ) → ℚ → ℚ
  | [], q => interpSeg p1 p2 q
  | p3 :: rest, q => if q ≤ p2.1 then interpSeg p1 p2 q else interpGo p2 p3 rest q

/-- `interp1d` needs at least two sample points; with fewer, scipy raises
and the app's `try/except` leaves `T_for_Q_input = None`, modelled as
`none`. -/
def interp1dE : List (ℚ × ℚ) → ℚ → Option ℚ
  | p1 :: p2 :: rest => fun q => some (interpGo p1 p2 rest q)
  | _ => fun _ => none

/-- The inverse solve (lines 115-126): sample the forward model over the
`T` grid, keep the samples whose discharge is at most the plot ceiling
`Q_max`, build the `Q → T` interpolant and evaluate it at the target
discharge `Q_input`. -/
def solveT (f : ℚ → ℚ) (lo hi : ℚ) (n : ℕ) (Qmax q : ℚ) : Option ℚ :=
  interp1dE (sampleFilter f lo hi n Qmax) q

/-- Last element of a sample list, with a default (proof bookkeeping only). -/
def lastD : List (ℚ × ℚ) → (ℚ × ℚ) → ℚ × ℚ
  | [], d => d
  | a :: l, _ => lastD l a

end Gutterflow

namespace Wildfire

/-! Helper lemmas about the override pass. -/

lemma getD_mapIdx (f : ℕ → ℚ → ℚ) :
    ∀ (l : List ℚ) (y : ℕ), y < l.length →
      (l.mapIdx f).getD y 0 = f y (l.getD y 0) := by
  intro l
  induction l generalizing f with
  | nil => intro y hy; simp at hy
  | cons a l ih =>
    intro y hy
    cases y with
    | zero => simp [List.mapIdx_cons]
    | succ y =>
      simp only [List.mapIdx_cons, List.getD_cons_succ]
      exact ih (fun i x => f (i + 1) x) y (by simpa using hy)

lemma length_overwriteSlice (cur post : List ℚ) (a b : ℕ) :
    (overwriteSlice cur post a b).length = cur.length := by
  simp [overwriteSlice]

lemma length_simStep (post : List ℚ) (d n : ℕ) (occ : List Bool)
    (acc : List ℚ) (year : ℕ) :
    (simStep post d n occ acc year).length = acc.length := by
  unfold simStep
  split
  · exact length_overwriteSlice _ _ _ _
  · rfl

lemma length_foldl_simStep (post : List ℚ) (d n : ℕ) (occ : List Bool) :
    ∀ (L : List ℕ) (acc : List ℚ),
      (L.foldl (simStep post d n occ) acc).length = acc.length := by
  intro L
  induction L with
  | nil => intro acc; rfl
  | cons o L ih =>
    intro acc
    simp only [List.foldl_cons]
    rw [ih, length_simStep]

lemma getD_overwriteSlice (cur post : List ℚ) (a b y : ℕ) (hy : y < cur.length) :
    (overwriteSlice cur post a b).getD y 0 =
      if a ≤ y ∧ y < b then post.getD y (cur.getD y 0) else cur.getD y 0 := by
  unfold overwriteSlice
  rw [getD_mapIdx _ cur y hy]

/-- Pointwise characterization of folding `simStep` over an arbitrary list of
years: position `y` holds the override draw exactly when some year in the
list has a fired onset whose window covers `y`; the order of the year list
is irrelevant because each overwrite copies the override entry of the
affected index itself. -/
lemma foldl_simStep_getD (post : List ℚ) (occ : List Bool) (d n : ℕ) :
    ∀ (L : List ℕ) (acc : List ℚ), acc.length = n → post.length = n →
      ∀ y, y < n →
      (L.foldl (simStep post d n occ) acc).getD y 0 =
        if L.any (onsetCovers occ d y) then post.getD y 0 else acc.getD y 0 := by
  intro L
  induction L with
  | nil => intro acc _ _ y _; simp
  | cons o L ih =>
    intro acc hacc hpost y hy
    simp only [List.foldl_cons, List.any_cons]
    rw [ih (simStep post d n occ acc o) (by rw [length_simStep]; exact hacc) hpost y hy]
    by_cases hL : L.any (onsetCovers occ d y)
    · simp [hL]
    · simp only [hL, Bool.or_false, if_false]
      unfold simStep onsetCovers
      by_cases hocc : occ.getD o false
      · rw [if_pos hocc]
        rw [getD_overwriteSlice acc post o (min (o + d) n) y (by rw [hacc]; exact hy)]
        have hyp : y < post.length := by rw [hpost]; exact hy
        by_cases hcov : o ≤ y ∧ y < o + d
        · have hlt : y < min (o + d) n := lt_min hcov.2 hy
          rw [if_pos (show o ≤ y ∧ y < min (o + d) n from ⟨hcov.1, hlt⟩)]
          rw [List.getD_eq_getElem post (acc.getD y 0) hyp,
            List.getD_eq_getElem post 0 hyp, hocc]
          simp [hcov.1, hcov.2]
        · have hcond : ¬(o ≤ y ∧ y < min (o + d) n) := fun hc =>
            hcov ⟨hc.1, lt_of_lt_of_le hc.2 (min_le_left _ _)⟩
          rw [if_neg hcond]
          have hcondF : (occ.getD o false && decide (o ≤ y) && decide (y < o + d)) = false := by
            rw [hocc]
            rcases Decidable.not_and_iff_or_not.mp hcov with h | h <;> simp [h]
          rw [hcondF]
      · simp only [Bool.not_eq_true] at hocc
        rw [hocc]
        simp

lemma applyOverrides_length (base post : List ℚ) (occ : List Bool) (d : ℕ) :
    (applyOverrides base post occ d).length = base.length :=
  length_foldl_simStep _ _ _ _ _ _

lemma applyOverridesRev_length (base post : List ℚ) (occ : List Bool) (d : ℕ) :
    (applyOverridesRev base post occ d).length = base.length :=
  length_foldl_simStep _ _ _ _ _ _

lemma applyOverrides_getD (base post : List ℚ) (occ : List Bool) (d : ℕ)
    (hpost : post.length = base.length) (y : ℕ) (hy : y < base.length) :
    (applyOverrides base post occ d).getD y 0 =
      if (List.range base.length).any (onsetCovers occ d y) then post.getD y 0
      else base.getD y 0 :=
  foldl_simStep_getD post occ d base.length (List.range base.length) base rfl hpost y hy

lemma applyOverridesRev_getD (base post : List ℚ) (occ : List Bool) (d : ℕ)
    (hpost : post.length = base.length) (y : ℕ) (hy : y < base.length) :
    (applyOverridesRev base post occ d).getD y 0 =
      if (List.range base.length).any (onsetCovers occ d y) then post.getD y 0
      else base.getD y 0 := by
  rw [applyOverridesRev,
    foldl_simStep_getD post occ d base.length (List.range base.length).reverse base rfl
      hpost y hy, List.any_reverse]

lemma mapIdx_eq_self (f : ℕ → ℚ → ℚ) :
    ∀ (l : List ℚ), (∀ i x, f i x = x) → l.mapIdx f = l := by
  intro l
  induction l generalizing f with
  | nil => intro _; rfl
  | cons a l ih =>
    intro h
    rw [List.mapIdx_cons, h 0 a, ih (fun i x => f (i + 1) x) (fun i x => h (i + 1) x)]

lemma overwriteSlice_of_empty_range (cur post : List ℚ) (a b : ℕ) (h : b ≤ a) :
    overwriteSlice cur post a b = cur :=
  mapIdx_eq_self _ cur (fun _ _ => if_neg (fun hc => absurd (lt_of_lt_of_le hc.2 h)
    (not_lt_of_ge hc.1)))

lemma foldl_simStep_of_no_onset (post : List ℚ) (occ : List Bool) (d n : ℕ)
    (hocc : ∀ y, occ.getD y false = false) :
    ∀ (L : List ℕ) (acc : List ℚ), L.foldl (simStep post d n occ) acc = acc := by
  intro L
  induction L with
  | nil => intro acc; rfl
  | cons o L ih =>
    intro acc
    simp only [List.foldl_cons]
    have : simStep post d n occ acc o = acc := by
      unfold simStep
      rw [hocc o]
      simp
    rw [this, ih]

lemma foldl_simStep_duration_zero (post : List ℚ) (occ : List Bool) (n : ℕ) :
    ∀ (L : List ℕ) (acc : List ℚ), L.foldl (simStep post 0 n occ) acc = acc := by
  intro L
  induction L with
  | nil => intro acc; rfl
  | cons o L ih =>
    intro acc
    simp only [List.foldl_cons]
    have : simStep post 0 n occ acc o = acc := by
      unfold simStep
      split
      · exact overwriteSlice_of_empty_range acc post o (min (o + 0) n)
          (le_trans (min_le_left _ _) (by omega))
      · rfl
    rw [this, ih]

lemma map_range_eq_apply {α : Type} (f1 f2 : ℕ → α) (N k : ℕ) (hk : k < N)
    (h : (List.range N).map f1 = (List.range N).map f2) : f1 k = f2 k := by
  have h2 := congrArg (fun l => l[k]?) h
  simp only [List.getElem?_map, List.getElem?_range hk] at h2
  exact Option.some.inj h2

lemma grid_index_lt (i j nT nY : ℕ) (hi : i < nT) (hj : j < nY) :
    i * nY + j < nT * nY :=
  calc i * nY + j < i * nY + nY := Nat.add_lt_add_left hj _
    _ = (i + 1) * nY := by ring
    _ ≤ nT * nY := Nat.mul_le_mul_right nY hi

lemma drawGrid_congr (f1 f2 : ℕ → ℚ) (off nT nY : ℕ)
    (h : ∀ k, k < off + nT * nY → f1 k = f2 k) :
    drawGrid f1 off nT nY = drawGrid f2 off nT nY := by
  unfold drawGrid
  apply List.map_congr_left
  intro i hi
  apply List.map_congr_left
  intro j hj
  exact h _ (by
    have := grid_index_lt i j nT nY (List.mem_range.mp hi) (List.mem_range.mp hj)
    omega)

lemma drawOccGrid_congr (g1 g2 : ℕ → Bool) (nT nY : ℕ)
    (h : ∀ k, k < nT * nY → g1 k = g2 k) :
    drawOccGrid g1 nT nY = drawOccGrid g2 nT nY := by
  unfold drawOccGrid
  apply List.map_congr_left
  intro i hi
  apply List.map_congr_left
  intro j hj
  exact h _ (grid_index_lt i j nT nY (List.mem_range.mp hi) (List.mem_range.mp hj))

/-- C4: with one trial, five years, certain annual onset
(`hazard_probability = 1`), duration `5`, constant baseline draws `1.0`
and constant override draws `9.0`, the year scan overwrites
`effective_values[year : min(year + 5, 5)]` on every year; the trial's
effective values are `[9, 9, 9, 9, 9]` and its time average is `9`. -/
theorem hazard_certain_scenario :
    applyOverrides [1, 1, 1, 1, 1] [9, 9, 9, 9, 9] [true, true, true, true, true] 5 =
      [9, 9, 9, 9, 9] ∧
    mean (applyOverrides [1, 1, 1, 1, 1] [9, 9, 9, 9, 9]
      [true, true, true, true, true] 5) = 9 := by
  have h1 : applyOverrides [1, 1, 1, 1, 1] [9, 9, 9, 9, 9]
      [true, true, true, true, true] 5 = [9, 9, 9, 9, 9] := rfl
  refine ⟨h1, ?_⟩
  rw [h1]
  norm_num [mean, List.sum_cons, List.sum_nil]

/-- C5: when no onset indicator fires (all Bernoulli draws are `false`, as
happens with `hazard_probability = 0`), the override loop never touches the
baseline draws: the effective values equal the baseline values exactly, and
the trial's time-averaged discharge equals the baseline-only counterfactual
computed from the same draws. -/
theorem no_onset_baseline_identity (base post : List ℚ) (occ : List Bool) (d : ℕ)
    (r a : ℚ) (hocc : ∀ b ∈ occ, b = false) :
    applyOverrides base post occ d = base ∧
    trialAvg base post occ d r a = mean (rowQ base r a) := by
  have hfalse : ∀ y, occ.getD y false = false := by
    intro y
    rcases lt_or_ge y occ.length with h | h
    · rw [List.getD_eq_getElem occ false h]
      exact hocc _ (List.getElem_mem h)
    · exact List.getD_eq_default occ false h
  have hmain : applyOverrides base post occ d = base :=
    foldl_simStep_of_no_onset post occ d base.length hfalse (List.range base.length) base
  exact ⟨hmain, by unfold trialAvg; rw [hmain]⟩

/-- Witness for C5 at a concrete input. -/
theorem no_onset_baseline_identity_witness :
    (∀ b ∈ [false, false, false], b = false) ∧
    (applyOverrides [1, 2, 3] [9, 9, 9] [false, false, false] 4 = [1, 2, 3] ∧
      trialAvg [1, 2, 3] [9, 9, 9] [false, false, false] 4 2 5 =
        mean (rowQ [1, 2, 3] 2 5)) :=
  ⟨by decide, no_onset_baseline_identity [1, 2, 3] [9, 9, 9] [false, false, false] 4 2 5
    (by decide)⟩

/-- C6: a `hazard_effect_duration` of `0` makes every override slice
`C_values[year : min(year + 0, n)]` empty, so the effective values stay
exactly the baseline values; the computation is total (no empty-slice or
division fault). -/
theorem duration_zero_noop (base post : List ℚ) (occ : List Bool) :
    applyOverrides base post occ 0 = base :=
  foldl_simStep_duration_zero post occ base.length (List.range base.length) base

/-- C7 counterexample: the script has no `InvalidConfig` failure path.  With
a non-positive year count (`num_years = 0`) the per-trial override pass
still completes and returns the (empty) effective-values row instead of
failing, and the trial count is the hardcoded constant `10000`, so a
non-positive trial count cannot even be configured. -/
theorem no_invalid_config_failure :
    applyOverrides [] [9] [true] 3 = [] ∧ num_simulations = 10000 :=
  ⟨rfl, rfl⟩

/-- C7 amended: the simulator performs no configuration validation and
never fails: the override pass is total and length-preserving for every
input, including degenerate zero-year configurations, while non-positive
counts are ruled out by construction (`num_simulations = 10000` is
hardcoded and the lifespan slider's minimum is `10`). -/
theorem simulation_total_without_validation :
    (∀ (base post : List ℚ) (occ : List Bool) (d : ℕ),
      (applyOverrides base post occ d).length = base.length) ∧
    0 < num_simulations ∧ 0 < design_lifespan_min :=
  ⟨fun base post occ d => applyOverrides_length base post occ d, by decide, by decide⟩

/-- C8: the sensitivity sweep over hazard durations is a deterministic
function of the draws made before the loop: if two random sources agree on
the baseline and override draw region (`2 * nT * nY` values) and on the
onset draw region (`nT * nY` values), the duration→mean-outcome curves are
identical — the duration loop itself consumes no fresh randomness. -/
theorem sweep_depends_only_on_draws (f1 f2 : ℕ → ℚ) (g1 g2 : ℕ → Bool)
    (nT nY : ℕ) (durs : List ℕ) (r a : ℚ)
    (hf : (List.range (2 * nT * nY)).map f1 = (List.range (2 * nT * nY)).map f2)
    (hg : (List.range (nT * nY)).map g1 = (List.range (nT * nY)).map g2) :
    sweepFromSeed f1 g1 nT nY durs r a = sweepFromSeed f2 g2 nT nY durs r a := by
  unfold sweepFromSeed
  have hf' : ∀ k, k < 2 * nT * nY → f1 k = f2 k := fun k hk =>
    map_range_eq_apply f1 f2 _ k hk hf
  have hg' : ∀ k, k < nT * nY → g1 k = g2 k := fun k hk =>
    map_range_eq_apply g1 g2 _ k hk hg
  have h2 : nT * nY + nT * nY = 2 * nT * nY := by ring
  rw [drawGrid_congr f1 f2 0 nT nY (fun k hk => hf' k (by omega)),
    drawGrid_congr f1 f2 (nT * nY) nT nY (fun k hk => hf' k (by omega)),
    drawOccGrid_congr g1 g2 nT nY hg']

/-- Witness for C8: two sources that agree on the consumed draw region but
differ beyond it produce the same sensitivity curve. -/
theorem sweep_depends_only_on_draws_witness :
    ((List.range (2 * 1 * 2)).map (fun k => (k : ℚ)) =
      (List.range (2 * 1 * 2)).map (fun k => if k < 4 then (k : ℚ) else 99)) ∧
    ((List.range (1 * 2)).map (fun _ => true) =
      (List.range (1 * 2)).map (fun k => decide (k < 2))) ∧
    sweepFromSeed (fun k => (k : ℚ)) (fun _ => true) 1 2 [1, 3] 1 1 =
      sweepFromSeed (fun k => if k < 4 then (k : ℚ) else 99)
        (fun k => decide (k < 2)) 1 2 [1, 3] 1 1 :=
  ⟨by norm_num [List.range_succ], by norm_num [List.range_succ],
    sweep_depends_only_on_draws (fun k => (k : ℚ))
      (fun k => if k < 4 then (k : ℚ) else 99) (fun _ => true)
      (fun k => decide (k < 2)) 1 2 [1, 3] 1 1 (by norm_num [List.range_succ])
      (by norm_num [List.range_succ])⟩

/-- C10: the final effective values are an order-independent function of the
onset pattern: year `y` holds the override draw for year `y` exactly when
some fired onset window covers `y`, and the baseline draw otherwise
(`effectiveSpec`); the chronological (last-onset-wins) scan and the
reverse-order (first-onset-wins) scan both realize it, so the overlap
policies coincide in this implementation. -/
theorem overrides_order_independent (base post : List ℚ) (occ : List Bool) (d : ℕ)
    (hocc : occ.length = base.length) (hpost : post.length = base.length) :
    applyOverrides base post occ d = effectiveSpec base post occ d ∧
    applyOverridesRev base post occ d = effectiveSpec base post occ d := by
  have hlenSpec : (effectiveSpec base post occ d).length = base.length := by
    simp [effectiveSpec]
  have hspecGet : ∀ y, y < base.length →
      (effectiveSpec base post occ d).getD y 0 =
        if (List.range base.length).any (onsetCovers occ d y) then post.getD y 0
        else base.getD y 0 := by
    intro y hy
    unfold effectiveSpec
    rw [List.getD_eq_getElem _ _ (by simpa using hy)]
    rw [List.getElem_map, List.getElem_range]
    unfold firedAny
    rw [hocc]
  constructor
  · apply List.ext_getElem (by rw [applyOverrides_length, hlenSpec])
    intro y hy1 hy2
    have hy : y < base.length := by rwa [applyOverrides_length] at hy1
    rw [← List.getD_eq_getElem _ 0 hy1, ← List.getD_eq_getElem _ 0 hy2,
      applyOverrides_getD base post occ d hpost y hy, hspecGet y hy]
  · apply List.ext_getElem (by rw [applyOverridesRev_length, hlenSpec])
    intro y hy1 hy2
    have hy : y < base.length := by rwa [applyOverridesRev_length] at hy1
    rw [← List.getD_eq_getElem _ 0 hy1, ← List.getD_eq_getElem _ 0 hy2,
      applyOverridesRev_getD base post occ d hpost y hy, hspecGet y hy]

/-- Witness for C10 at a concrete input with overlapping windows. -/
theorem overrides_order_independent_witness :
    ([true, false, true, false].length = ([1, 2, 3, 4] : List ℚ).length) ∧
    (([9, 8, 7, 6] : List ℚ).length = ([1, 2, 3, 4] : List ℚ).length) ∧
    (applyOverrides [1, 2, 3, 4] [9, 8, 7, 6] [true, false, true, false] 2 =
      effectiveSpec [1, 2, 3, 4] [9, 8, 7, 6] [true, false, true, false] 2 ∧
    applyOverridesRev [1, 2, 3, 4] [9, 8, 7, 6] [true, false, true, false] 2 =
      effectiveSpec [1, 2, 3, 4] [9, 8, 7, 6] [true, false, true, false] 2) :=
  ⟨rfl, rfl, overrides_order_independent [1, 2, 3, 4] [9, 8, 7, 6]
    [true, false, true, false] 2 rfl rfl⟩

end Wildfire

namespace Gutterflow

/-! Helper lemmas about the sampling and interpolation pipeline. -/

lemma interp1dE_eq_none_of_short (l : List (ℚ × ℚ)) (q : ℚ) (hl : l.length < 2) :
    interp1dE l q = none := by
  match l with
  | [] => rfl
  | [p] => rfl
  | p1 :: p2 :: ps => exact absurd hl (by simp [List.length_cons])

lemma interpSeg_mem (a b : ℚ × ℚ) (q : ℚ) (hx : a.1 < b.1) (hy : a.2 ≤ b.2)
    (h1 : a.1 ≤ q) (h2 : q ≤ b.1) :
    a.2 ≤ interpSeg a b q ∧ interpSeg a b q ≤ b.2 := by
  unfold interpSeg
  have hd : 0 < b.1 - a.1 := by linarith
  constructor
  · have : 0 ≤ (q - a.1) * (b.2 - a.2) / (b.1 - a.1) :=
      div_nonneg (mul_nonneg (by linarith) (by linarith)) hd.le
    linarith
  · have hmul : (q - a.1) * (b.2 - a.2) ≤ (b.2 - a.2) * (b.1 - a.1) := by
      nlinarith [mul_le_mul_of_nonneg_right (show q - a.1 ≤ b.1 - a.1 by linarith)
        (show (0:ℚ) ≤ b.2 - a.2 by linarith)]
    have : (q - a.1) * (b.2 - a.2) / (b.1 - a.1) ≤ b.2 - a.2 := by
      rw [div_le_iff₀ hd]
      linarith
    linarith

lemma interpSeg_id (a b : ℚ × ℚ) (ha : a.1 = a.2) (hb : b.1 = b.2)
    (hne : b.1 - a.1 ≠ 0) (q : ℚ) : interpSeg a b q = q := by
  unfold interpSeg
  rw [← ha, ← hb]
  field_simp

lemma interpGo_bracket (R : ℚ × ℚ → ℚ × ℚ → Prop) (ps : List (ℚ × ℚ)) :
    ∀ (p1 p2 : ℚ × ℚ) (q : ℚ), List.Chain' R (p1 :: p2 :: ps) →
      p1.1 ≤ q → q ≤ (lastD ps p2).1 →
      ∃ a b, R a b ∧ a.1 ≤ q ∧ q ≤ b.1 ∧ interpGo p1 p2 ps q = interpSeg a b q := by
  induction ps with
  | nil =>
    intro p1 p2 q hchain h1 h2
    exact ⟨p1, p2, (List.chain'_cons.mp hchain).1, h1, h2, rfl⟩
  | cons p3 rest ih =>
    intro p1 p2 q hchain h1 h2
    by_cases hq : q ≤ p2.1
    · exact ⟨p1, p2, (List.chain'_cons.mp hchain).1, h1, hq, by simp [interpGo, hq]⟩
    · obtain ⟨a, b, hR, ha, hb, heq⟩ :=
        ih p2 p3 q (List.chain'_cons.mp hchain).2 (le_of_not_le hq) h2
      exact ⟨a, b, hR, ha, hb, by simp [interpGo, hq, heq]⟩

lemma interp1dE_bracket (R : ℚ × ℚ → ℚ × ℚ → Prop) (l : List (ℚ × ℚ)) (q : ℚ)
    (d0 : ℚ × ℚ) (hlen : 2 ≤ l.length) (hchain : List.Chain' R l)
    (hfirst : (l.headD d0).1 ≤ q) (hlast : q ≤ (lastD l d0).1) :
    ∃ a b, R a b ∧ a.1 ≤ q ∧ q ≤ b.1 ∧
      interp1dE l q = some (interpSeg a b q) := by
  cases l with
  | nil => simp at hlen
  | cons p1 l1 =>
    cases l1 with
    | nil => simp at hlen
    | cons p2 ps =>
      have hfirst' : p1.1 ≤ q := by simpa using hfirst
      obtain ⟨a, b, hR, ha, hb, heq⟩ :=
        interpGo_bracket R ps p1 p2 q hchain hfirst' hlast
      exact ⟨a, b, hR, ha, hb, by simp [interp1dE, heq]⟩

lemma chain'_map_range {R : ℚ × ℚ → ℚ × ℚ → Prop} (g : ℕ → ℚ × ℚ)
    (hg : ∀ i, R (g i) (g (i + 1))) (n : ℕ) :
    List.Chain' R ((List.range n).map g) := by
  cases n with
  | zero => simp
  | succ m =>
    exact List.chain'_map_of_chain' g (fun _ _ h => h)
      ((List.chain'_range_succ (fun i j => R (g i) (g j)) m).mpr (fun i _ => hg i))

lemma lastD_append_singleton : ∀ (l : List (ℚ × ℚ)) (d x : ℚ × ℚ),
    lastD (l ++ [x]) d = x := by
  intro l
  induction l with
  | nil => intro d x; rfl
  | cons a l ih => intro d x; exact ih a x

lemma lastD_map_range (g : ℕ → ℚ × ℚ) (d : ℚ × ℚ) (n : ℕ) (hn : 1 ≤ n) :
    lastD ((List.range n).map g) d = g (n - 1) := by
  cases n with
  | zero => omega
  | succ m =>
    rw [List.range_succ, List.map_append]
    exact lastD_append_singleton _ d (g m)

lemma headD_map_range (g : ℕ → ℚ × ℚ) (d : ℚ × ℚ) (n : ℕ) (hn : 1 ≤ n) :
    ((List.range n).map g).headD d = g 0 := by
  cases n with
  | zero => omega
  | succ m => rw [List.range_succ_eq_map]; rfl

lemma cast_sub_one_pos (n : ℕ) (hn : 2 ≤ n) : (0 : ℚ) < (n : ℚ) - 1 := by
  have : (2 : ℚ) ≤ (n : ℚ) := by exact_mod_cast hn
  linarith

lemma gridT_zero (lo hi : ℚ) (n : ℕ) : gridT lo hi n 0 = lo := by
  simp [gridT]

lemma gridT_last (lo hi : ℚ) (n : ℕ) (hn : 2 ≤ n) : gridT lo hi n (n - 1) = hi := by
  have hpos := cast_sub_one_pos n hn
  have hcast : ((n - 1 : ℕ) : ℚ) = (n : ℚ) - 1 := by
    have : 1 ≤ n := by omega
    push_cast [Nat.cast_sub this]
    ring
  unfold gridT
  rw [hcast]
  field_simp

lemma gridT_step (lo hi : ℚ) (n : ℕ) (i : ℕ) :
    gridT lo hi n (i + 1) - gridT lo hi n i = (hi - lo) / ((n : ℚ) - 1) := by
  unfold gridT
  push_cast
  ring

lemma gridT_strict_mono (lo hi : ℚ) (n : ℕ) (hn : 2 ≤ n) (hlo : lo < hi)
    {i j : ℕ} (hij : i < j) : gridT lo hi n i < gridT lo hi n j := by
  have hstep : 0 < (hi - lo) / ((n : ℚ) - 1) :=
    div_pos (by linarith) (cast_sub_one_pos n hn)
  have hcast : (i : ℚ) < (j : ℚ) := by exact_mod_cast hij
  unfold gridT
  have := mul_lt_mul_of_pos_right hcast hstep
  linarith

lemma gridT_le_hi (lo hi : ℚ) (n : ℕ) (hn : 2 ≤ n) (hlo : lo < hi)
    {i : ℕ} (hi' : i < n) : gridT lo hi n i ≤ hi := by
  rcases Nat.lt_or_ge i (n - 1) with h | h
  · have hmono := gridT_strict_mono lo hi n hn hlo h
    rw [gridT_last lo hi n hn] at hmono
    exact le_of_lt hmono
  · rw [show i = n - 1 by omega, gridT_last lo hi n hn]

lemma sampleFilter_eq_map (f : ℚ → ℚ) (lo hi : ℚ) (n : ℕ) (Qmax : ℚ)
    (hf : Monotone f) (hlo : lo < hi) (hn : 2 ≤ n) (hQ : f hi ≤ Qmax) :
    sampleFilter f lo hi n Qmax =
      (List.range n).map (fun i => (f (gridT lo hi n i), gridT lo hi n i)) := by
  unfold sampleFilter linspace
  rw [List.map_map]
  apply List.filter_eq_self.mpr
  intro p hp
  obtain ⟨i, hi', hpi⟩ := List.mem_map.mp hp
  have hiQ : f (gridT lo hi n i) ≤ Qmax :=
    le_trans (hf (gridT_le_hi lo hi n hn hlo (List.mem_range.mp hi'))) hQ
  rw [← hpi]
  simpa using hiQ

end Gutterflow

namespace Gutterflow

lemma interp1dE_isSome_of_two (l : List (ℚ × ℚ)) (q : ℚ) (hl : 2 ≤ l.length) :
    (interp1dE l q).isSome = true := by
  match l with
  | [] => exact absurd hl (by norm_num)
  | [p] => exact absurd hl (by simp)
  | p1 :: p2 :: ps => rfl

lemma solveT_bracket (f : ℚ → ℚ) (lo hi : ℚ) (n : ℕ) (Qmax q : ℚ)
    (hf : StrictMono f) (hlo : lo < hi) (hn : 2 ≤ n) (hQ : f hi ≤ Qmax)
    (hq1 : f lo ≤ q) (hq2 : q ≤ f hi) :
    ∃ a b : ℚ × ℚ,
      (a.1 < b.1 ∧ a.2 ≤ b.2 ∧ b.2 - a.2 = (hi - lo) / ((n : ℚ) - 1) ∧
        a.1 = f a.2 ∧ b.1 = f b.2) ∧
      a.1 ≤ q ∧ q ≤ b.1 ∧ solveT f lo hi n Qmax q = some (interpSeg a b q) := by
  have hfil := sampleFilter_eq_map f lo hi n Qmax hf.monotone hlo hn hQ
  have hstep : ∀ i, gridT lo hi n i < gridT lo hi n (i + 1) := fun i =>
    gridT_strict_mono lo hi n hn hlo (Nat.lt_succ_self i)
  have hchain : List.Chain'
      (fun a b : ℚ × ℚ => a.1 < b.1 ∧ a.2 ≤ b.2 ∧
        b.2 - a.2 = (hi - lo) / ((n : ℚ) - 1) ∧ a.1 = f a.2 ∧ b.1 = f b.2)
      ((List.range n).map (fun i => (f (gridT lo hi n i), gridT lo hi n i))) :=
    chain'_map_range _ (fun i =>
      ⟨hf (hstep i), (hstep i).le, gridT_step lo hi n i, rfl, rfl⟩) n
  have hlen : 2 ≤ ((List.range n).map
      (fun i => (f (gridT lo hi n i), gridT lo hi n i))).length := by
    simpa using hn
  have hhead : (((List.range n).map
      (fun i => (f (gridT lo hi n i), gridT lo hi n i))).headD ((0 : ℚ), (0 : ℚ))).1 ≤ q := by
    rw [headD_map_range _ _ n (by omega)]
    show f (gridT lo hi n 0) ≤ q
    rw [gridT_zero]
    exact hq1
  have hlast : q ≤ (lastD ((List.range n).map
      (fun i => (f (gridT lo hi n i), gridT lo hi n i))) ((0 : ℚ), (0 : ℚ))).1 := by
    rw [lastD_map_range _ _ n (by omega)]
    show q ≤ f (gridT lo hi n (n - 1))
    rw [gridT_last lo hi n hn]
    exact hq2
  obtain ⟨a, b, hR, ha, hb, heq⟩ :=
    interp1dE_bracket _ _ q ((0 : ℚ), (0 : ℚ)) hlen hchain hhead hlast
  refine ⟨a, b, hR, ha, hb, ?_⟩
  rw [solveT, hfil]
  exact heq

lemma solveT_id (lo hi : ℚ) (n : ℕ) (Qmax q : ℚ) (hlo : lo < hi) (hn : 2 ≤ n)
    (hQ : hi ≤ Qmax) (hq1 : lo ≤ q) (hq2 : q ≤ hi) :
    solveT (fun x => x) lo hi n Qmax q = some q := by
  obtain ⟨a, b, ⟨hab, _, _, haf, hbf⟩, _, _, heq⟩ :=
    solveT_bracket (fun x => x) lo hi n Qmax q strictMono_id hlo hn hQ hq1 hq2
  rw [heq, interpSeg_id a b haf hbf (sub_ne_zero.mpr (ne_of_gt hab)) q]

/-- C2: for every strictly increasing forward model `f`, grid `[lo, hi]`
with `n ≥ 2` samples, ceiling at least `f hi`, and `T0` strictly inside the
sampled interval, solving for the target `f T0` returns a numeric
`solved_T` within one sample spacing `(hi - lo) / (n - 1)` of `T0`; in
particular, for the identity model sampled at 500 points over `[0, 10]`
with target `Q = 4`, the solver returns exactly `4`, within the claimed
`±0.02`. -/
theorem inverse_solve_within_one_spacing :
    (∀ (f : ℚ → ℚ) (lo hi : ℚ) (n : ℕ) (Qmax T0 : ℚ),
      StrictMono f → lo < T0 → T0 < hi → 2 ≤ n → f hi ≤ Qmax →
      ∃ t, solveT f lo hi n Qmax (f T0) = some t ∧
        |t - T0| ≤ (hi - lo) / ((n : ℚ) - 1)) ∧
    (solveT (fun x => x) 0 10 500 10 4 = some 4 ∧
      |(4 : ℚ) - 4| ≤ 2 / 100) := by
  constructor
  · intro f lo hi n Qmax T0 hf h1 h2 hn hQ
    obtain ⟨a, b, ⟨hab, hy2, hstepw, haf, hbf⟩, haq, hqb, heq⟩ :=
      solveT_bracket f lo hi n Qmax (f T0) hf (lt_trans h1 h2) hn hQ
        (hf.monotone (le_of_lt h1)) (hf.monotone (le_of_lt h2))
    refine ⟨interpSeg a b (f T0), heq, ?_⟩
    have hT0a : a.2 ≤ T0 := by
      rw [haf] at haq
      exact hf.le_iff_le.mp haq
    have hT0b : T0 ≤ b.2 := by
      rw [hbf] at hqb
      exact hf.le_iff_le.mp hqb
    obtain ⟨hs1, hs2⟩ := interpSeg_mem a b (f T0) hab hy2 haq hqb
    rw [abs_le]
    constructor <;> linarith
  · refine ⟨?_, by norm_num⟩
    exact solveT_id 0 10 500 10 4 (by norm_num) (by norm_num) (by norm_num)
      (by norm_num) (by norm_num)

/-- Witness for C2: the general statement instantiated at the identity
model over `[0, 10]` with 500 samples and target `4`. -/
theorem inverse_solve_within_one_spacing_witness :
    StrictMono (fun x : ℚ => x) ∧ (0 : ℚ) < 4 ∧ (4 : ℚ) < 10 ∧ 2 ≤ 500 ∧
    (10 : ℚ) ≤ 10 ∧
    ∃ t, solveT (fun x => x) 0 10 500 10 4 = some t ∧
      |t - 4| ≤ (10 - 0) / ((500 : ℚ) - 1) :=
  ⟨fun _ _ h => h, by norm_num, by norm_num, by norm_num, le_refl _,
    inverse_solve_within_one_spacing.1 (fun x => x) 0 10 500 10 4
      (fun _ _ h => h) (by norm_num) (by norm_num) (by norm_num) (le_refl _)⟩

/-- C1 counterexample: with the identity forward model sampled at two
points over `[0, 10]` and ceiling `10`, the sampled discharges are exactly
`0` and `10`, yet for the out-of-range target `20` the solve returns the
ordinary numeric value `some 20` — silent extrapolation, with no failure
and no flag distinguishing it from an in-range result. -/
theorem solve_extrapolates_out_of_range :
    sampleFilter (fun x => x) 0 10 2 10 = [(0, 0), (10, 10)] ∧
    solveT (fun x => x) 0 10 2 10 20 = some 20 := by
  have h1 : sampleFilter (fun x => x) 0 10 2 10 = [(0, 0), (10, 10)] := by
    norm_num [sampleFilter, linspace, gridT, List.range_succ]
  refine ⟨h1, ?_⟩
  rw [solveT, h1]
  show some (interpGo (0, 0) (10, 10) [] 20) = some 20
  norm_num [interpGo, interpSeg]

/-- C1 amended: whenever at least two samples survive the ceiling filter,
the inverse solve returns an ordinary numeric `solved_T` for every target
discharge, including targets outside the sampled `[Q_min, Q_max]` range:
`fill_value="extrapolate"` extrapolates silently, and nothing in the
result reports an out-of-range condition or marks it as extrapolated. -/
theorem solve_always_numeric (f : ℚ → ℚ) (lo hi : ℚ) (n : ℕ) (Qmax q : ℚ)
    (hlen : 2 ≤ (sampleFilter f lo hi n Qmax).length) :
    ∃ t, solveT f lo hi n Qmax q = some t := by
  unfold solveT
  cases h : sampleFilter f lo hi n Qmax with
  | nil => rw [h] at hlen; simp at hlen
  | cons p1 l1 =>
    cases l1 with
    | nil => rw [h] at hlen; simp at hlen
    | cons p2 ps => exact ⟨interpGo p1 p2 ps q, rfl⟩

/-- Witness for C1's amended statement. -/
theorem solve_always_numeric_witness :
    2 ≤ (sampleFilter (fun x => x) 0 10 2 10).length ∧
    ∃ t, solveT (fun x => x) 0 10 2 10 20 = some t :=
  ⟨by norm_num [sampleFilter, linspace, gridT, List.range_succ],
    solve_always_numeric (fun x => x) 0 10 2 10 20
      (by norm_num [sampleFilter, linspace, gridT, List.range_succ])⟩

/-- C9 counterexample: a constant (flat) forward model whose value passes
the ceiling leaves two sample points carrying a single distinct discharge
value, yet the inverse solve does not fail: `interp1d` is happily built
from the two points and evaluating it still returns an ordinary `some`
result.  (In the floating-point original the zero-denominator slope makes
that value NaN, emitted with only a runtime warning; `float(nan)` succeeds,
NaN is truthy, and it flows into the depth formula and the displayed
output — a partial numeric result, not a reported failure.) -/
theorem flat_model_still_returns :
    sampleFilter (fun _ => 5) 0 10 2 10 = [(5, 0), (5, 10)] ∧
    ((sampleFilter (fun _ => 5) 0 10 2 10).map Prod.fst).dedup.length < 2 ∧
    (solveT (fun _ => 5) 0 10 2 10 7).isSome = true := by
  have h1 : sampleFilter (fun _ => 5) 0 10 2 10 = [(5, 0), (5, 10)] := by
    norm_num [sampleFilter, linspace, gridT, List.range_succ]
  refine ⟨h1, ?_, ?_⟩
  · rw [h1]
    decide
  · rw [solveT, h1]
    rfl

/-- C9 amended: the solve produces no result (neither a solved top width
nor a derived depth — the `except` path) exactly when fewer than two sample
points survive the ceiling filter, `interp1d` refusing construction; a
flat/constant model that keeps two or more samples under the ceiling is
not such a failure: the solve still returns an ordinary numeric value
(junk from the zero-denominator segment — NaN in the floating-point
original), unreported and indistinguishable from a genuine result. -/
theorem degenerate_handling_actual :
    (∀ (f : ℚ → ℚ) (lo hi : ℚ) (n : ℕ) (Qmax q : ℚ) (W Sw Sx : ℝ),
      (sampleFilter f lo hi n Qmax).length < 2 →
      solveT f lo hi n Qmax q = none ∧
      Option.map (fun t : ℚ => compute_max_depth (t : ℝ) W Sw Sx)
        (solveT f lo hi n Qmax q) = none) ∧
    (∀ (f : ℚ → ℚ) (lo hi : ℚ) (n : ℕ) (Qmax q : ℚ),
      2 ≤ (sampleFilter f lo hi n Qmax).length →
      (solveT f lo hi n Qmax q).isSome = true) := by
  constructor
  · intro f lo hi n Qmax q W Sw Sx hshort
    have h1 : solveT f lo hi n Qmax q = none :=
      interp1dE_eq_none_of_short _ q hshort
    exact ⟨h1, by rw [h1]; rfl⟩
  · intro f lo hi n Qmax q hlong
    exact interp1dE_isSome_of_two _ q hlong

/-- Witness for C9's amended statement: a ceiling below every sample gives
the no-result path, while a flat model with both samples kept still
returns a value. -/
theorem degenerate_handling_actual_witness :
    ((sampleFilter (fun x => x) 0 10 2 (-1)).length < 2 ∧
      (solveT (fun x => x) 0 10 2 (-1) 5 = none ∧
        Option.map (fun t : ℚ => compute_max_depth (t : ℝ) 1 1 1)
          (solveT (fun x => x) 0 10 2 (-1) 5) = none)) ∧
    (2 ≤ (sampleFilter (fun _ => 5) 0 10 2 10).length ∧
      (solveT (fun _ => 5) 0 10 2 10 7).isSome = true) :=
  ⟨⟨by norm_num [sampleFilter, linspace, gridT, List.range_succ],
    degenerate_handling_actual.1 (fun x => x) 0 10 2 (-1) 5 1 1 1
      (by norm_num [sampleFilter, linspace, gridT, List.range_succ])⟩,
   ⟨by norm_num [sampleFilter, linspace, gridT, List.range_succ],
    degenerate_handling_actual.2 (fun _ => 5) 0 10 2 10 7
      (by norm_num [sampleFilter, linspace, gridT, List.range_succ])⟩⟩

end Gutterflow

namespace Gutterflow

/-! Monotonicity of the composite-gutter forward model in the top width. -/

lemma mannings_flow_mono (A1 A2 R1 R2 Sl n : ℝ) (hn : 0 < n) (hSl : 0 ≤ Sl)
    (hA1 : 0 ≤ A1) (hA : A1 ≤ A2) (hR1 : 0 ≤ R1) (hR : R1 ≤ R2) :
    mannings_flow A1 R1 Sl n ≤ mannings_flow A2 R2 Sl n := by
  unfold mannings_flow
  have hs : 0 ≤ Sl ^ ((0.5 : ℝ)) := Real.rpow_nonneg hSl _
  have hrp : R1 ^ ((2 : ℝ) / 3) ≤ R2 ^ ((2 : ℝ) / 3) :=
    Real.rpow_le_rpow hR1 hR (by norm_num)
  have hrp1 : 0 ≤ R1 ^ ((2 : ℝ) / 3) := Real.rpow_nonneg hR1 _
  have hA2 : 0 ≤ A2 := le_trans hA1 hA
  calc (1 / n) * A1 * R1 ^ ((2 : ℝ) / 3) * Sl ^ ((0.5 : ℝ))
      ≤ (1 / n) * A2 * R1 ^ ((2 : ℝ) / 3) * Sl ^ ((0.5 : ℝ)) := by
        apply mul_le_mul_of_nonneg_right _ hs
        apply mul_le_mul_of_nonneg_right _ hrp1
        exact mul_le_mul_of_nonneg_left hA (by positivity)
    _ ≤ (1 / n) * A2 * R2 ^ ((2 : ℝ) / 3) * Sl ^ ((0.5 : ℝ)) := by
        apply mul_le_mul_of_nonneg_right _ hs
        exact mul_le_mul_of_nonneg_left hrp (mul_nonneg (by positivity) hA2)

lemma cross_sqrt (aa t1 t2 : ℝ) (h1 : 0 ≤ t1) (h12 : t1 ≤ t2) :
    t1 * Real.sqrt (aa ^ 2 + t2 ^ 2) ≤ t2 * Real.sqrt (aa ^ 2 + t1 ^ 2) := by
  have ht2 : 0 ≤ t2 := le_trans h1 h12
  have hs1 : t1 * Real.sqrt (aa ^ 2 + t2 ^ 2) =
      Real.sqrt (t1 ^ 2 * (aa ^ 2 + t2 ^ 2)) := by
    rw [Real.sqrt_mul (sq_nonneg t1), Real.sqrt_sq h1]
  have hs2 : t2 * Real.sqrt (aa ^ 2 + t1 ^ 2) =
      Real.sqrt (t2 ^ 2 * (aa ^ 2 + t1 ^ 2)) := by
    rw [Real.sqrt_mul (sq_nonneg t2), Real.sqrt_sq ht2]
  rw [hs1, hs2]
  apply Real.sqrt_le_sqrt
  have hsq : t1 ^ 2 ≤ t2 ^ 2 := pow_le_pow_left₀ h1 h12 2
  nlinarith [mul_le_mul_of_nonneg_left hsq (sq_nonneg aa)]

lemma aw_mono (t1 t2 Sw : ℝ) (h1 : 0 ≤ t1) (h12 : t1 ≤ t2) (hSw : 0 ≤ Sw) :
    0.5 * t1 * (Sw * t1) ≤ 0.5 * t2 * (Sw * t2) := by
  have ht2 : 0 ≤ t2 := le_trans h1 h12
  calc 0.5 * t1 * (Sw * t1) = (0.5 * Sw) * (t1 * t1) := by ring
    _ ≤ (0.5 * Sw) * (t2 * t2) :=
      mul_le_mul_of_nonneg_left (mul_le_mul h12 h12 h1 ht2) (by positivity)
    _ = 0.5 * t2 * (Sw * t2) := by ring

lemma aw_div_pw_mono (t1 t2 Sw s : ℝ) (h1 : 0 < t1) (h12 : t1 ≤ t2)
    (hSw : 0 ≤ Sw) (hs : 0 < s) :
    0.5 * t1 * (Sw * t1) / (t1 * s) ≤ 0.5 * t2 * (Sw * t2) / (t2 * s) := by
  have ht2 : 0 < t2 := lt_of_lt_of_le h1 h12
  rw [div_le_div_iff₀ (mul_pos h1 hs) (mul_pos ht2 hs)]
  have key : t1 * t1 * t2 ≤ t2 * t2 * t1 := by
    nlinarith [mul_nonneg (mul_nonneg h1.le ht2.le) (sub_nonneg.mpr h12)]
  calc 0.5 * t1 * (Sw * t1) * (t2 * s) = (0.5 * Sw * s) * (t1 * t1 * t2) := by ring
    _ ≤ (0.5 * Sw * s) * (t2 * t2 * t1) :=
      mul_le_mul_of_nonneg_left key (by positivity)
    _ = 0.5 * t2 * (Sw * t2) * (t1 * s) := by ring

lemma Tw_pos (T W : ℝ) (hT : 0 < T) (hW : 0 < W) : 0 < Tw T W := lt_min hT hW

lemma Tw_mono (T1 T2 W : ℝ) (h12 : T1 ≤ T2) : Tw T1 W ≤ Tw T2 W :=
  min_le_min h12 le_rfl

lemma Ts_nonneg (T W : ℝ) : 0 ≤ Ts T W := le_max_right _ _

lemma Ts_mono (T1 T2 W : ℝ) (h12 : T1 ≤ T2) : Ts T1 W ≤ Ts T2 W :=
  max_le_max (sub_le_sub_right h12 W) le_rfl

lemma sqrt_one_add_sq_pos (x : ℝ) : 0 < Real.sqrt (1 + x ^ 2) :=
  Real.sqrt_pos.mpr (by positivity)

lemma Pw_pos (T W Sw : ℝ) (hT : 0 < T) (hW : 0 < W) : 0 < Pw T W Sw :=
  mul_pos (Tw_pos T W hT hW) (sqrt_one_add_sq_pos Sw)

lemma Aw_nonneg (T W Sw : ℝ) (hT : 0 < T) (hW : 0 < W) (hSw : 0 ≤ Sw) :
    0 ≤ Aw T W Sw := by
  unfold Aw
  have ht := (Tw_pos T W hT hW).le
  exact mul_nonneg (mul_nonneg (by norm_num) ht) (mul_nonneg hSw ht)

lemma Aw_mono (T1 T2 W Sw : ℝ) (hT1 : 0 < T1) (hW : 0 < W) (h12 : T1 ≤ T2)
    (hSw : 0 ≤ Sw) : Aw T1 W Sw ≤ Aw T2 W Sw := by
  unfold Aw
  exact aw_mono (Tw T1 W) (Tw T2 W) Sw (Tw_pos T1 W hT1 hW).le
    (Tw_mono T1 T2 W h12) hSw

lemma Rw_nonneg (T W Sw : ℝ) (hT : 0 < T) (hW : 0 < W) (hSw : 0 ≤ Sw) :
    0 ≤ Rw T W Sw := by
  unfold Rw
  rw [if_pos (ne_of_gt (Pw_pos T W Sw hT hW))]
  exact div_nonneg (Aw_nonneg T W Sw hT hW hSw) (Pw_pos T W Sw hT hW).le

lemma Rw_mono (T1 T2 W Sw : ℝ) (hT1 : 0 < T1) (hW : 0 < W) (h12 : T1 ≤ T2)
    (hSw : 0 ≤ Sw) : Rw T1 W Sw ≤ Rw T2 W Sw := by
  have hT2 : 0 < T2 := lt_of_lt_of_le hT1 h12
  unfold Rw
  rw [if_pos (ne_of_gt (Pw_pos T1 W Sw hT1 hW)),
    if_pos (ne_of_gt (Pw_pos T2 W Sw hT2 hW))]
  unfold Aw Pw
  exact aw_div_pw_mono (Tw T1 W) (Tw T2 W) Sw (Real.sqrt (1 + Sw ^ 2))
    (Tw_pos T1 W hT1 hW) (Tw_mono T1 T2 W h12) hSw (sqrt_one_add_sq_pos Sw)

lemma Qw_mono (T1 T2 W Sw Nw Sl : ℝ) (hT1 : 0 < T1) (hW : 0 < W) (h12 : T1 ≤ T2)
    (hSw : 0 < Sw) (hNw : 0 < Nw) (hSl : 0 ≤ Sl) :
    Qw T1 W Sw Nw Sl ≤ Qw T2 W Sw Nw Sl := by
  unfold Qw
  exact mannings_flow_mono _ _ _ _ Sl Nw hNw hSl
    (Aw_nonneg T1 W Sw hT1 hW hSw.le) (Aw_mono T1 T2 W Sw hT1 hW h12 hSw.le)
    (Rw_nonneg T1 W Sw hT1 hW hSw.le) (Rw_mono T1 T2 W Sw hT1 hW h12 hSw.le)

lemma sqrt_term_ge (aa u : ℝ) (haa : 0 ≤ aa) : aa ≤ Real.sqrt (aa ^ 2 + u ^ 2) := by
  have h1 : Real.sqrt (aa ^ 2) ≤ Real.sqrt (aa ^ 2 + u ^ 2) :=
    Real.sqrt_le_sqrt (le_add_of_nonneg_right (sq_nonneg u))
  rwa [Real.sqrt_sq haa] at h1

lemma Ps_pos (T W Sw Sx : ℝ) (hW : 0 < W) (hSw : 0 < Sw) : 0 < Ps T W Sw Sx := by
  unfold Ps
  have hu := Ts_nonneg T W
  have h1 : Sw * W ≤ Real.sqrt ((Sw * W) ^ 2 + Ts T W ^ 2) :=
    sqrt_term_ge (Sw * W) (Ts T W) (by positivity)
  have h2 : 0 ≤ Ts T W * Real.sqrt (1 + Sx ^ 2) :=
    mul_nonneg hu (sqrt_one_add_sq_pos Sx).le
  nlinarith [mul_pos hSw hW]

lemma As_nonneg (T W Sw Sx : ℝ) (hW : 0 < W) (hSw : 0 ≤ Sw) (hSx : 0 ≤ Sx) :
    0 ≤ As T W Sw Sx := by
  unfold As
  have hu := Ts_nonneg T W
  exact mul_nonneg hu (by positivity)

lemma As_mono (T1 T2 W Sw Sx : ℝ) (hW : 0 < W) (h12 : T1 ≤ T2) (hSw : 0 ≤ Sw)
    (hSx : 0 ≤ Sx) : As T1 W Sw Sx ≤ As T2 W Sw Sx := by
  unfold As
  have hu1 := Ts_nonneg T1 W
  have hum := Ts_mono T1 T2 W h12
  nlinarith [mul_nonneg (mul_nonneg hSw hW.le) (sub_nonneg.mpr hum),
    mul_nonneg hSx
      (mul_nonneg (add_nonneg hu1 (le_trans hu1 hum)) (sub_nonneg.mpr hum))]

lemma Rs_nonneg (T W Sw Sx : ℝ) (hW : 0 < W) (hSw : 0 < Sw) (hSx : 0 ≤ Sx) :
    0 ≤ Rs T W Sw Sx := by
  unfold Rs
  rw [if_pos (ne_of_gt (Ps_pos T W Sw Sx hW hSw))]
  exact div_nonneg (As_nonneg T W Sw Sx hW hSw.le hSx) (Ps_pos T W Sw Sx hW hSw).le

lemma Rs_mono (T1 T2 W Sw Sx : ℝ) (hW : 0 < W) (hSw : 0 < Sw) (hSx : 0 ≤ Sx)
    (h12 : T1 ≤ T2) : Rs T1 W Sw Sx ≤ Rs T2 W Sw Sx := by
  unfold Rs
  rw [if_pos (ne_of_gt (Ps_pos T1 W Sw Sx hW hSw)),
    if_pos (ne_of_gt (Ps_pos T2 W Sw Sx hW hSw))]
  rw [div_le_div_iff₀ (Ps_pos T1 W Sw Sx hW hSw) (Ps_pos T2 W Sw Sx hW hSw)]
  unfold As Ps
  have hu1 := Ts_nonneg T1 W
  have hu2 := Ts_nonneg T2 W
  have hum := Ts_mono T1 T2 W h12
  have hs1 : 0 ≤ Real.sqrt ((Sw * W) ^ 2 + Ts T1 W ^ 2) := Real.sqrt_nonneg _
  have hs2 : 0 ≤ Real.sqrt ((Sw * W) ^ 2 + Ts T2 W ^ 2) := Real.sqrt_nonneg _
  have hc : 0 ≤ Real.sqrt (1 + Sx ^ 2) := Real.sqrt_nonneg _
  have hcross : Ts T1 W * Real.sqrt ((Sw * W) ^ 2 + Ts T2 W ^ 2) ≤
      Ts T2 W * Real.sqrt ((Sw * W) ^ 2 + Ts T1 W ^ 2) :=
    cross_sqrt (Sw * W) (Ts T1 W) (Ts T2 W) hu1 hum
  have key1 : Ts T1 W ^ 2 * Ts T2 W ≤ Ts T2 W ^ 2 * Ts T1 W := by
    nlinarith [mul_nonneg (mul_nonneg hu1 hu2) (sub_nonneg.mpr hum)]
  have key2 : Ts T1 W ^ 2 * Real.sqrt ((Sw * W) ^ 2 + Ts T2 W ^ 2) ≤
      Ts T2 W ^ 2 * Real.sqrt ((Sw * W) ^ 2 + Ts T1 W ^ 2) := by
    calc Ts T1 W ^ 2 * Real.sqrt ((Sw * W) ^ 2 + Ts T2 W ^ 2)
        = Ts T1 W * (Ts T1 W * Real.sqrt ((Sw * W) ^ 2 + Ts T2 W ^ 2)) := by ring
      _ ≤ Ts T1 W * (Ts T2 W * Real.sqrt ((Sw * W) ^ 2 + Ts T1 W ^ 2)) :=
          mul_le_mul_of_nonneg_left hcross hu1
      _ = (Ts T2 W * Real.sqrt ((Sw * W) ^ 2 + Ts T1 W ^ 2)) * Ts T1 W := by ring
      _ ≤ (Ts T2 W * Real.sqrt ((Sw * W) ^ 2 + Ts T1 W ^ 2)) * Ts T2 W :=
          mul_le_mul_of_nonneg_left hum (mul_nonneg hu2 hs1)
      _ = Ts T2 W ^ 2 * Real.sqrt ((Sw * W) ^ 2 + Ts T1 W ^ 2) := by ring
  have hSwW : 0 ≤ Sw * W := by positivity
  nlinarith [mul_le_mul_of_nonneg_left key1 (div_nonneg hSx (by norm_num : (0:ℝ) ≤ 2)),
    mul_le_mul_of_nonneg_left key1
      (mul_nonneg hc (div_nonneg hSx (by norm_num : (0:ℝ) ≤ 2))),
    mul_le_mul_of_nonneg_left hcross hSwW,
    mul_le_mul_of_nonneg_left key2 (div_nonneg hSx (by norm_num : (0:ℝ) ≤ 2)),
    mul_le_mul_of_nonneg_left hcross (mul_nonneg hc hSwW)]

lemma Qs_mono (T1 T2 W Sw Sx Nx Sl : ℝ) (hW : 0 < W) (hSw : 0 < Sw)
    (hSx : 0 ≤ Sx) (hNx : 0 < Nx) (hSl : 0 ≤ Sl) (h12 : T1 ≤ T2) :
    Qs T1 W Sw Sx Nx Sl ≤ Qs T2 W Sw Sx Nx Sl := by
  unfold Qs
  exact mannings_flow_mono _ _ _ _ Sl Nx hNx hSl
    (As_nonneg T1 W Sw Sx hW hSw.le hSx) (As_mono T1 T2 W Sw Sx hW h12 hSw.le hSx)
    (Rs_nonneg T1 W Sw Sx hW hSw hSx) (Rs_mono T1 T2 W Sw Sx hW hSw hSx h12)

/-- C3: for positive geometry parameters the composite-gutter forward model
is non-decreasing in the top width: `0 < T1 ≤ T2` implies
`compute_composite_flow T1 ≤ compute_composite_flow T2` — both the frontal
(`Qw`) and the side (`Qs`) contributions grow with the width. -/
theorem compute_composite_flow_mono (T1 T2 W Sw Nw Sx Nx Sl : ℝ)
    (hW : 0 < W) (hSw : 0 < Sw) (hNw : 0 < Nw) (hSx : 0 < Sx) (hNx : 0 < Nx)
    (hSl : 0 < Sl) (hT1 : 0 < T1) (h12 : T1 ≤ T2) :
    compute_composite_flow T1 W Sw Nw Sx Nx Sl ≤
      compute_composite_flow T2 W Sw Nw Sx Nx Sl := by
  unfold compute_composite_flow
  exact add_le_add
    (Qw_mono T1 T2 W Sw Nw Sl hT1 hW h12 hSw hNw hSl.le)
    (Qs_mono T1 T2 W Sw Sx Nx Sl hW hSw hSx.le hNx hSl.le h12)

/-- Witness for C3 at a concrete positive configuration. -/
theorem compute_composite_flow_mono_witness :
    (0 : ℝ) < 1 ∧ (1 : ℝ) ≤ 2 ∧
    compute_composite_flow 1 1 1 1 1 1 1 ≤ compute_composite_flow 2 1 1 1 1 1 1 :=
  ⟨by norm_num, by norm_num,
    compute_composite_flow_mono 1 2 1 1 1 1 1 1 (by norm_num) (by norm_num)
      (by norm_num) (by norm_num) (by norm_num) (by norm_num) (by norm_num)
      (by norm_num)⟩

end Gutterflow
